import Mathlib

/-!
Verification development for the front-end behavior layer of the
cillustrisimo.github.io portfolio site.

The development shallowly embeds the subsystems the specification talks
about:

* `ImageLoader` (src/js/interactions.js, second file): a promise-memoized
  image cache.  Promises are modelled by numeric identifiers; the cache is
  an association list from URL to promise id, `loadsStarted` records every
  underlying `new Image()` load ever begun, and `inflight` holds the ids of
  loads that have not yet settled.  Browser load/error callbacks become
  explicit events.
* `ContentLoader` (src/js/content-loader.js): the hover preview box and its
  timed slideshow (`showPreviewBox`, `updatePreviewImage`, the
  `startSlideshow` interval callback).
* `ProjectList` (src/js/interactions.js, first file): sort toggling,
  search matching and display filtering.

All definitions are translated from the JavaScript source; theorems about
the specification's claims follow after the definitions.
-/

/-! ## Association-list helpers (model of `Map` keyed by URL / promise id) -/

/-- Lookup in an association list keyed by `String` (models `Map.get`). -/
def alookup : List (String × Nat) → String → Option Nat
  | [], _ => none
  | (k, v) :: t, u => if k = u then some v else alookup t u

/-- Lookup in an association list keyed by `Nat` (promise id ↦ URL). -/
def nlookup : List (Nat × String) → Nat → Option String
  | [], _ => none
  | (k, v) :: t, p => if k = p then some v else nlookup t p

/-- Remove the entry keyed by `u` (models `Map.delete(u)`). -/
def eraseKey (u : String) : List (String × Nat) → List (String × Nat)
  | [] => []
  | (k, v) :: t => if k = u then eraseKey u t else (k, v) :: eraseKey u t

/-- Remove a promise id from the in-flight list (the load settled). -/
def removeNat (p : Nat) : List Nat → List Nat
  | [] => []
  | q :: t => if q = p then removeNat p t else q :: removeNat p t

/-! ## ImageLoader state machine (src/js/interactions.js, `class ImageLoader`) -/

/-- State of the `ImageLoader`.  `cache` is `this.cache` (URL ↦ cached
promise), `loadsStarted` records every underlying image load ever started
(promise id, URL), `inflight` the promise ids whose `Image` has fired
neither `onload` nor `onerror` yet, and `nextId` a supply of fresh promise
ids. -/
structure LoaderState where
  cache : List (String × Nat)
  loadsStarted : List (Nat × String)
  inflight : List Nat
  nextId : Nat
  deriving DecidableEq, Repr

/-- The loader right after `new ImageLoader()`: empty cache, no loads. -/
def initLoader : LoaderState :=
  { cache := [], loadsStarted := [], inflight := [], nextId := 0 }

/-- `ImageLoader.preloadImage(src)` (interactions.js lines 322–366):
return the cached promise when `this.cache.has(src)`; otherwise create a
fresh loading promise (a new underlying `Image` load) and store it in the
cache keyed by `src`.  Returns the updated state and the promise id the
call hands back. -/
def preloadImage (s : LoaderState) (u : String) : LoaderState × Nat :=
  match alookup s.cache u with
  | some pid => (s, pid)
  | none =>
      ({ cache := (u, s.nextId) :: s.cache,
         loadsStarted := (s.nextId, u) :: s.loadsStarted,
         inflight := s.nextId :: s.inflight,
         nextId := s.nextId + 1 }, s.nextId)

/-- Events the browser can deliver to the loader: a `preloadImage` call, a
load's `onload` (success) or its `onerror` (failure). -/
inductive LoaderEvent where
  | preload (u : String)
  | success (pid : Nat)
  | failure (pid : Nat)
  deriving DecidableEq, Repr

/-- One step of the loader.  `success pid` settles the in-flight load
(`img.onload` resolves the cached promise; the cache is untouched).
`failure pid` is `img.onerror` (interactions.js lines 349–352): it deletes
the load's URL from the cache (`this.cache.delete(src)`) and rejects. -/
def stepLoader (s : LoaderState) : LoaderEvent → LoaderState
  | .preload u => (preloadImage s u).1
  | .success pid =>
      if pid ∈ s.inflight then
        { s with inflight := removeNat pid s.inflight }
      else s
  | .failure pid =>
      match nlookup s.loadsStarted pid with
      | some u =>
          if pid ∈ s.inflight then
            { s with
              cache := eraseKey u s.cache,
              inflight := removeNat pid s.inflight }
          else s
      | none => s

/-- Run a list of events from a state. -/
def runLoader (s : LoaderState) : List LoaderEvent → LoaderState
  | [] => s
  | e :: tr => runLoader (stepLoader s e) tr

/-- `ImageLoader.isCached(url)` (interactions.js lines 592–594):
`this.cache.has(url)`. -/
def isCached (s : LoaderState) (u : String) : Bool :=
  (alookup s.cache u).isSome

/-- Number of underlying image loads ever started for URL `u`. -/
def loadsFor (s : LoaderState) (u : String) : Nat :=
  (s.loadsStarted.filter (fun e => e.2 = u)).length

/-- Whether event `e`, fired in state `s`, is the error callback of a load
of URL `u` (the only kind of event whose handler deletes `u`'s entry). -/
def errTouches (s : LoaderState) (e : LoaderEvent) (u : String) : Bool :=
  match e with
  | .failure pid => nlookup s.loadsStarted pid == some u
  | _ => false

/-- A trace contains no error callback for a load of URL `u`. -/
def noErrOn (s : LoaderState) (u : String) : List LoaderEvent → Bool
  | [] => true
  | e :: tr => !errTouches s e u && noErrOn (stepLoader s e) u tr

/-- Well-formedness invariant of reachable loader states: promise ids of
started loads and of cache entries are below the fresh-id supply, and an
in-flight load's URL is cached and keyed to that very load's promise. -/
def LoaderWF (s : LoaderState) : Prop :=
  (∀ e ∈ s.loadsStarted, e.1 < s.nextId) ∧
  (∀ c ∈ s.cache, c.2 < s.nextId) ∧
  (∀ e ∈ s.loadsStarted, e.1 ∈ s.inflight → alookup s.cache e.2 = some e.1)

instance (s : LoaderState) : Decidable (LoaderWF s) := by
  unfold LoaderWF; infer_instance

/-! ## Lazy image elements (`ImageLoader.loadLazyImage`) -/

/-- The slice of an `<img>` element's state that `loadLazyImage` touches. -/
structure LazyImg where
  src : Option String
  dataSrc : Option String
  classes : List String
  lazyAttr : Option String
  deriving DecidableEq, Repr

/-- `ImageLoader.loadLazyImage(img)` (interactions.js lines 432–451).
`ok` is whether the awaited `preloadImage(src)` promise resolved.  On
success the real source is swapped in and the `loaded` markers applied; on
failure the error is only logged and the `load-error` class added. -/
def loadLazyImage (img : LazyImg) (ok : Bool) : LazyImg :=
  match img.dataSrc with
  | none => img
  | some s =>
      if ok then
        { img with
          src := some s,
          dataSrc := none,
          classes := "loaded" :: img.classes,
          lazyAttr := some "loaded" }
      else
        { img with classes := "load-error" :: img.classes }

/-! ## Batched preloading (`ImageLoader.preloadImages`, interactions.js 373–389) -/

/-- First-occurrence deduplication with an explicit seen accumulator; this
is the order-preserving semantics of `[...new Set(urls)]`. -/
def dedupAux : List String → List String → List String
  | [], _ => []
  | x :: xs, seen =>
      if x ∈ seen then dedupAux xs seen else x :: dedupAux xs (x :: seen)

/-- `[...new Set(urls)]`: the input URLs with later duplicates dropped. -/
def dedupFirst (urls : List String) : List String :=
  dedupAux urls []

/-- The slicing loop `for (let i = 0; i < n; i += 4) batches.push(slice(i, i+4))`
with `this.config.concurrentPreloads = 4`. -/
def chunks4 : List String → List (List String)
  | [] => []
  | [a] => [[a]]
  | [a, b] => [[a, b]]
  | [a, b, c] => [[a, b, c]]
  | a :: b :: c :: d :: rest => [a, b, c, d] :: chunks4 rest

/-- `const uniqueUrls = [...new Set(urls)].filter(url => !this.cache.has(url))`. -/
def uniqueUncached (cache : List (String × Nat)) (urls : List String) : List String :=
  (dedupFirst urls).filter (fun u => (alookup cache u).isNone)

/-- The batches `preloadImages` builds before its await loop. -/
def preloadBatches (cache : List (String × Nat)) (urls : List String) : List (List String) :=
  chunks4 (uniqueUncached cache urls)

/-- A phase of the `for (const batch of batches)` loop: starting every load
of a batch (`batch.map(url => this.preloadImage(url))`), or awaiting the
settlement of the started batch (`await Promise.allSettled(...)`). -/
inductive BatchPhase where
  | start (batch : List String)
  | awaitAll
  deriving DecidableEq, Repr

/-- The phase trace of the await loop: each batch is started and then fully
awaited before the loop moves to the next batch. -/
def batchTrace : List (List String) → List BatchPhase
  | [] => []
  | b :: bs => .start b :: .awaitAll :: batchTrace bs

/-- The phase trace `ImageLoader.preloadImages(urls)` executes. -/
def preloadImagesTrace (cache : List (String × Nat)) (urls : List String) : List BatchPhase :=
  batchTrace (preloadBatches cache urls)

/-! ## ContentLoader preview slideshow (src/js/content-loader.js) -/

/-- The slice of the `#preview-box-img` element's state that
`updatePreviewImage` touches: its background image, the `transitioning`
and `loaded` classes, and the URL of a fade-in `Image` whose `onload` has
not fired yet. -/
structure PreviewImg where
  backgroundImage : Option String
  transitioning : Bool
  loaded : Bool
  pendingLoad : Option String
  deriving DecidableEq, Repr

/-- The `ContentLoader` slideshow state (content-loader.js lines 17–22
plus the preview element). -/
structure ContentState where
  currentImages : List String
  currentImageIndex : Nat
  previewImg : PreviewImg
  isPreviewVisible : Bool
  slideshowRunning : Bool
  deriving DecidableEq, Repr

/-- The delay of the slideshow interval, `this.slideshowDelay` in
milliseconds (content-loader.js line 21). -/
def slideshowDelay : Nat := 2500

/-- `ContentLoader.updatePreviewImage(instant)` (content-loader.js lines
177–206).  `ready` is `this.isImageReady` (content-loader.js lines 93–98,
`window.imageLoader.isCached`).  When `instant || ready url` holds the
image is shown at once with the `transitioning` class removed; otherwise
the `transitioning` class is added and a fresh `Image` load is begun whose
`onload` will swap the background in later. -/
def updatePreviewImage (ready : String → Bool) (instant : Bool) (s : ContentState) :
    ContentState :=
  if s.currentImages.length = 0 then s
  else
    match s.currentImages[s.currentImageIndex]? with
    | none => s
    | some url =>
        if instant || ready url then
          { s with previewImg :=
              { s.previewImg with
                backgroundImage := some url,
                transitioning := false,
                loaded := true } }
        else
          { s with previewImg :=
              { s.previewImg with
                transitioning := true,
                pendingLoad := some url } }

/-- The `img.onload` callback of `updatePreviewImage`'s fade branch
(content-loader.js lines 195–203): swap the background in and clear the
`transitioning` class. -/
def previewImgOnload (s : ContentState) : ContentState :=
  match s.previewImg.pendingLoad with
  | none => s
  | some url =>
      { s with previewImg :=
          { s.previewImg with
            backgroundImage := some url,
            transitioning := false,
            loaded := true,
            pendingLoad := none } }

/-- `ContentLoader.showPreviewBox(images)` on a hover-capable device with
the preview elements present (content-loader.js lines 104–128): store the
image list, reset the index to 0, stop any running slideshow, show the
first image with `updatePreviewImage(true)`, make the box visible, and
start the slideshow when there is more than one image. -/
def showPreviewBox (ready : String → Bool) (images : List String) (s : ContentState) :
    ContentState :=
  let s₁ := { s with
    currentImages := images,
    currentImageIndex := 0,
    slideshowRunning := false }
  let s₂ := updatePreviewImage ready true s₁
  let s₃ := { s₂ with isPreviewVisible := true }
  if s₃.currentImages.length > 1 then { s₃ with slideshowRunning := true } else s₃

/-- The `setInterval` callback of `ContentLoader.startSlideshow`
(content-loader.js lines 254–257): advance the index modulo the number of
images and redraw without the `instant` flag. -/
def slideshowTick (ready : String → Bool) (s : ContentState) : ContentState :=
  updatePreviewImage ready false
    { s with currentImageIndex := (s.currentImageIndex + 1) % s.currentImages.length }

/-- `k` firings of the slideshow interval. -/
def slideshowTicks (ready : String → Bool) : Nat → ContentState → ContentState
  | 0, s => s
  | k + 1, s => slideshowTick ready (slideshowTicks ready k s)

/-- The URL the current slideshow position targets,
`this.currentImages[this.currentImageIndex]`. -/
def currentTarget (s : ContentState) : Option String :=
  s.currentImages[s.currentImageIndex]?

/-! ## ProjectList (src/js/interactions.js, `class ProjectList`) -/

/-- Boolean test that `hay` starts with `needle` (character lists). -/
def leadsList : List Char → List Char → Bool
  | [], _ => true
  | _ :: _, [] => false
  | a :: ns, b :: hs => a == b && leadsList ns hs

/-- Boolean substring test on character lists, the semantics of
`String.prototype.includes`. -/
def hasSub : List Char → List Char → Bool
  | [], needle => needle.isEmpty
  | h :: t, needle => leadsList needle (h :: t) || hasSub t needle

/-- `hay.includes(needle)` for strings. -/
def strIncludes (hay needle : String) : Bool :=
  hasSub hay.data needle.data

/-- Propositional substring relation: `needle` occurs contiguously in
`hay`.  Used to phrase the specification's reading of matching. -/
def SubStr (needle hay : String) : Prop :=
  ∃ pre post, hay.data = pre ++ needle.data ++ post

/-- `String.prototype.toLowerCase()`: lowercase every character. -/
def strToLower (s : String) : String :=
  ⟨s.data.map Char.toLower⟩

/-- Strip leading and trailing whitespace from a character list. -/
def trimChars (l : List Char) : List Char :=
  ((l.dropWhile Char.isWhitespace).reverse.dropWhile Char.isWhitespace).reverse

/-- `String.prototype.trim()`: strip whitespace from both ends. -/
def strTrim (s : String) : String :=
  ⟨trimChars s.data⟩

/-- A cached project record (interactions.js lines 55–61: `title` and
`category` are stored lowercased, `year` is the parsed year) together with
the element state `filterProjects` mutates: the inline `display` style and
the presence of the `active` class. -/
structure Project where
  id : String
  year : Nat
  title : String
  category : String
  display : String
  active : Bool
  deriving DecidableEq, Repr

/-- The match condition of `ProjectList.filterProjects` (interactions.js
lines 126–129): an empty query matches everything, otherwise the query
must occur in the title, the category, or `year.toString()`. -/
def filterMatch (q title category : String) (year : Nat) : Bool :=
  q == "" || strIncludes title q || strIncludes category q ||
    strIncludes (Nat.repr year) q

/-- `filterMatch` applied to a cached project record. -/
def projMatches (q : String) (p : Project) : Bool :=
  filterMatch q p.title p.category p.year

/-- `ProjectList.filterProjects` (interactions.js lines 124–139): for each
project, either clear `display` and add the `active` class, or set
`display` to `'none'` and remove the class.  Nothing else is touched. -/
def filterProjects (q : String) (ps : List Project) : List Project :=
  ps.map (fun p =>
    if projMatches q p then { p with display := "", active := true }
    else { p with display := "none", active := false })

/-- The `ProjectList` state the filtering claims speak about: the child
ids of the `#projectList` container in DOM order, the cached `projects`
array, and the search query (already lowercased and trimmed by
`onSearch`). -/
structure ProjectListState where
  container : List String
  projects : List Project
  searchQuery : String
  deriving DecidableEq, Repr

/-- `filterProjects` as invoked on the instance: `this.projects` is
filtered against `this.searchQuery`; the container's child list is not
touched. -/
def filterProjectsSt (st : ProjectListState) : ProjectListState :=
  { st with projects := filterProjects st.searchQuery st.projects }

/-- `ProjectList.onSearch` (interactions.js lines 94–97): lowercase and
trim the input value, store it, and re-filter. -/
def onSearch (input : String) (st : ProjectListState) : ProjectListState :=
  filterProjectsSt { st with searchQuery := strTrim (strToLower input) }

/-- The identity data of a project record, i.e. everything
`filterProjects` must leave alone. -/
def projData (p : Project) : String × Nat × String × String :=
  (p.id, p.year, p.title, p.category)

/-- The sort state of `ProjectList` (interactions.js lines 17–18). -/
structure SortState where
  currentSort : String
  sortDirection : String
  deriving DecidableEq, Repr

/-- The sort-state update of `ProjectList.onFilterClick` (interactions.js
lines 74–80): clicking the button for `key` toggles the direction when
`key` is already the current sort, and otherwise selects `key` with the
direction reset to `'desc'`. -/
def onFilterClick (key : String) (s : SortState) : SortState :=
  if s.currentSort = key then
    { s with sortDirection := if s.sortDirection = "desc" then "asc" else "desc" }
  else
    { currentSort := key, sortDirection := "desc" }

/-! ## Helper lemmas: association lists -/

theorem alookup_eraseKey_ne (u w : String) (h : w ≠ u) :
    ∀ l : List (String × Nat), alookup (eraseKey w l) u = alookup l u := by
  intro l
  induction l with
  | nil => rfl
  | cons e t ih =>
    obtain ⟨k, v⟩ := e
    by_cases hk : k = w
    · have hku : ¬ (k = u) := fun hu => h (hk ▸ hu)
      simp [eraseKey, alookup, hk, hku, h, ih]
    · by_cases hku : k = u
      · simp [eraseKey, alookup, hk, hku, Ne.symm h]
      · simp [eraseKey, alookup, hk, hku, ih]

theorem alookup_eraseKey_self (u : String) :
    ∀ l : List (String × Nat), alookup (eraseKey u l) u = none := by
  intro l
  induction l with
  | nil => rfl
  | cons e t ih =>
    obtain ⟨k, v⟩ := e
    by_cases hk : k = u
    · simp [eraseKey, hk, ih]
    · simp [eraseKey, alookup, hk, ih]

theorem mem_removeNat {q p : Nat} :
    ∀ l : List Nat, (q ∈ removeNat p l ↔ q ∈ l ∧ q ≠ p) := by
  intro l
  induction l with
  | nil => simp [removeNat]
  | cons a t ih =>
    by_cases ha : a = p <;> by_cases hqa : q = a <;> by_cases hqp : q = p <;>
      simp_all [removeNat]

/-! ## Helper lemmas: loader steps -/

theorem alookup_mem {l : List (String × Nat)} {u : String} {p : Nat}
    (h : alookup l u = some p) : (u, p) ∈ l := by
  induction l with
  | nil => simp [alookup] at h
  | cons e t ih =>
    obtain ⟨k, v⟩ := e
    by_cases hk : k = u
    · subst hk
      simp [alookup] at h
      simp [h]
    · simp [alookup, hk] at h
      exact List.mem_cons_of_mem _ (ih h)

theorem mem_eraseKey_sub {c : String × Nat} {u : String} :
    ∀ {l : List (String × Nat)}, c ∈ eraseKey u l → c ∈ l := by
  intro l
  induction l with
  | nil => intro h; simp [eraseKey] at h
  | cons e t ih =>
    obtain ⟨k, v⟩ := e
    intro h
    by_cases hk : k = u
    · rw [eraseKey, if_pos hk] at h
      exact List.mem_cons_of_mem _ (ih h)
    · rw [eraseKey, if_neg hk] at h
      rcases List.mem_cons.mp h with h1 | h1
      · exact h1 ▸ List.mem_cons_self _ _
      · exact List.mem_cons_of_mem _ (ih h1)

theorem nlookup_mem {l : List (Nat × String)} {pid : Nat} {u : String}
    (h : nlookup l pid = some u) : (pid, u) ∈ l := by
  induction l with
  | nil => simp [nlookup] at h
  | cons e t ih =>
    obtain ⟨k, v⟩ := e
    by_cases hk : k = pid
    · subst hk
      simp [nlookup] at h
      simp [h]
    · simp [nlookup, hk] at h
      exact List.mem_cons_of_mem _ (ih h)

theorem alookup_step_stable {s : LoaderState} {u : String} {p : Nat} {e : LoaderEvent}
    (hc : alookup s.cache u = some p) (he : errTouches s e u = false) :
    alookup (stepLoader s e).cache u = some p := by
  cases e with
  | preload v =>
    unfold stepLoader preloadImage
    cases hv : alookup s.cache v with
    | some q => simpa [hv] using hc
    | none =>
      have hvu : ¬ (v = u) := fun h => by rw [h, hc] at hv; cases hv
      simpa [hv, alookup, hvu] using hc
  | success pid =>
    unfold stepLoader
    by_cases hin : pid ∈ s.inflight <;> simp [hin, hc]
  | failure pid =>
    unfold stepLoader
    cases hl : nlookup s.loadsStarted pid with
    | none => simpa [hl] using hc
    | some w =>
      have hwu : w ≠ u := by
        intro heq
        rw [errTouches, hl, heq] at he
        simp at he
      by_cases hin : pid ∈ s.inflight
      · simpa [hl, hin, alookup_eraseKey_ne u w hwu] using hc
      · simpa [hl, hin] using hc

theorem loadsFor_step_stable {s : LoaderState} {u : String} {p : Nat}
    (hc : alookup s.cache u = some p) (e : LoaderEvent) :
    loadsFor (stepLoader s e) u = loadsFor s u := by
  cases e with
  | preload v =>
    unfold stepLoader preloadImage
    cases hv : alookup s.cache v with
    | some q => simp [hv]
    | none =>
      have hvu : ¬ (v = u) := fun h => by rw [h, hc] at hv; cases hv
      simp [hv, loadsFor, List.filter_cons, hvu]
  | success pid =>
    unfold stepLoader
    by_cases hin : pid ∈ s.inflight <;> simp [hin, loadsFor]
  | failure pid =>
    unfold stepLoader
    cases hl : nlookup s.loadsStarted pid with
    | none => simp [hl]
    | some w => by_cases hin : pid ∈ s.inflight <;> simp [hl, hin, loadsFor]

theorem wf_stepLoader {s : LoaderState} (hwf : LoaderWF s) (e : LoaderEvent) :
    LoaderWF (stepLoader s e) := by
  obtain ⟨hfresh, hcfresh, hinv⟩ := hwf
  cases e with
  | preload v =>
    unfold stepLoader preloadImage
    cases hv : alookup s.cache v with
    | some q => simpa [hv] using ⟨hfresh, hcfresh, hinv⟩
    | none =>
      simp only [hv]
      refine ⟨?_, ?_, ?_⟩
      · intro e he
        rcases List.mem_cons.mp he with h1 | h1
        · rw [h1]; exact Nat.lt_succ_self _
        · exact Nat.lt_trans (hfresh e h1) (Nat.lt_succ_self _)
      · intro c hc
        rcases List.mem_cons.mp hc with h1 | h1
        · rw [h1]; exact Nat.lt_succ_self _
        · exact Nat.lt_trans (hcfresh c h1) (Nat.lt_succ_self _)
      · intro e he hin
        rcases List.mem_cons.mp he with h1 | h1
        · rw [h1]; simp [alookup]
        · have hlt := hfresh e h1
          rcases List.mem_cons.mp hin with h2 | h2
          · exact absurd h2 (Nat.ne_of_lt hlt)
          · have hold := hinv e h1 h2
            have hne : ¬ (v = e.2) := fun hh => by rw [hh, hold] at hv; cases hv
            simpa [alookup, hne] using hold
  | success pid =>
    unfold stepLoader
    by_cases hin : pid ∈ s.inflight
    · simp only [hin, if_true]
      refine ⟨hfresh, hcfresh, ?_⟩
      intro e he h2
      exact hinv e he ((mem_removeNat _).mp h2).1
    · simpa [hin] using ⟨hfresh, hcfresh, hinv⟩
  | failure pid =>
    unfold stepLoader
    cases hl : nlookup s.loadsStarted pid with
    | none => simpa [hl] using ⟨hfresh, hcfresh, hinv⟩
    | some w =>
      by_cases hin : pid ∈ s.inflight
      · simp only [hl, hin, if_true]
        refine ⟨hfresh, ?_, ?_⟩
        · intro c hc
          exact hcfresh c (mem_eraseKey_sub hc)
        · intro e he h2
          obtain ⟨h2a, h2b⟩ := (mem_removeNat _).mp h2
          have hold := hinv e he h2a
          have hwne : w ≠ e.2 := by
            intro heq
            have hpw := hinv (pid, w) (nlookup_mem hl) hin
            rw [heq, hold] at hpw
            exact h2b (Option.some.inj hpw)
          rw [alookup_eraseKey_ne _ _ hwne]
          exact hold
      · simpa [hl, hin] using ⟨hfresh, hcfresh, hinv⟩

theorem settled_step {s : LoaderState} {u : String} {p : Nat}
    (hwf : LoaderWF s) (hc : alookup s.cache u = some p)
    (hnin : p ∉ s.inflight) (e : LoaderEvent) :
    alookup (stepLoader s e).cache u = some p ∧
    p ∉ (stepLoader s e).inflight := by
  obtain ⟨hfresh, hcfresh, hinv⟩ := hwf
  cases e with
  | preload v =>
    unfold stepLoader preloadImage
    cases hv : alookup s.cache v with
    | some q => simp [hv, hc, hnin]
    | none =>
      have hvu : ¬ (v = u) := fun h => by rw [h, hc] at hv; cases hv
      have hplt : p < s.nextId := hcfresh (u, p) (alookup_mem hc)
      constructor
      · simpa [hv, alookup, hvu] using hc
      · simp only [hv, List.mem_cons]
        rintro (h1 | h1)
        · exact absurd h1 (Nat.ne_of_lt hplt)
        · exact hnin h1
  | success pid =>
    unfold stepLoader
    by_cases hin : pid ∈ s.inflight
    · simp only [hin, if_true]
      exact ⟨hc, fun h => hnin ((mem_removeNat _).mp h).1⟩
    · simp [hin, hc, hnin]
  | failure pid =>
    unfold stepLoader
    cases hl : nlookup s.loadsStarted pid with
    | none => simp [hl, hc, hnin]
    | some w =>
      by_cases hin : pid ∈ s.inflight
      · simp only [hl, hin, if_true]
        have hwu : w ≠ u := by
          intro heq
          have hpw := hinv (pid, w) (nlookup_mem hl) hin
          rw [heq, hc] at hpw
          exact hnin (Option.some.inj hpw ▸ hin)
        constructor
        · rw [alookup_eraseKey_ne _ _ hwu]; exact hc
        · exact fun h => hnin ((mem_removeNat _).mp h).1
      · simp [hl, hin, hc, hnin]

theorem settled_run {u : String} {p : Nat} :
    ∀ (tr : List LoaderEvent) (s : LoaderState), LoaderWF s →
      alookup s.cache u = some p → p ∉ s.inflight →
      LoaderWF (runLoader s tr) ∧
      alookup (runLoader s tr).cache u = some p ∧
      p ∉ (runLoader s tr).inflight := by
  intro tr
  induction tr with
  | nil => intro s hwf hc hnin; exact ⟨hwf, hc, hnin⟩
  | cons e tr ih =>
    intro s hwf hc hnin
    have hwf' := wf_stepLoader hwf e
    have hstep := settled_step hwf hc hnin e
    simp only [runLoader]
    exact ih (stepLoader s e) hwf' hstep.1 hstep.2

theorem runLoader_cache_stable {u : String} {p : Nat} :
    ∀ (tr : List LoaderEvent) (s : LoaderState),
      alookup s.cache u = some p → noErrOn s u tr = true →
      alookup (runLoader s tr).cache u = some p ∧
      loadsFor (runLoader s tr) u = loadsFor s u := by
  intro tr
  induction tr with
  | nil => intro s hc _; exact ⟨hc, rfl⟩
  | cons e tr ih =>
    intro s hc htr
    rw [noErrOn, Bool.and_eq_true] at htr
    obtain ⟨he, htr'⟩ := htr
    have he' : errTouches s e u = false := by
      cases hval : errTouches s e u
      · rfl
      · rw [hval] at he; cases he
    have h1 := alookup_step_stable hc he'
    have h2 := loadsFor_step_stable hc e
    have h3 := ih (stepLoader s e) h1 htr'
    simp only [runLoader]
    exact ⟨h3.1, by rw [h3.2, h2]⟩

theorem preloadImage_hit {s : LoaderState} {u : String} {p : Nat}
    (h : alookup s.cache u = some p) : preloadImage s u = (s, p) := by
  simp [preloadImage, h]

theorem preloadImage_miss_cache {s : LoaderState} {u : String}
    (h : alookup s.cache u = none) :
    alookup (preloadImage s u).1.cache u = some (preloadImage s u).2 := by
  simp [preloadImage, h, alookup]

theorem preloadImage_miss_loads {s : LoaderState} {u : String}
    (h : alookup s.cache u = none) :
    loadsFor (preloadImage s u).1 u = loadsFor s u + 1 := by
  simp [preloadImage, h, loadsFor, List.filter_cons]

/-! ## Claims C1, C2 and C5: the image cache -/

/-- C1 (amended): in any execution in which no load of URL `u` fails, a
first `preloadImage(u)` call (cache miss) stores a promise in the cache
keyed by `u` and starts exactly one underlying load, and after any such
trace of further loader activity a subsequent `preloadImage(u)` call
returns the identical memoized promise, changes nothing, and starts no
further load for `u`. -/
theorem preloadImage_memoizes (s : LoaderState) (u : String)
    (tr : List LoaderEvent)
    (hmiss : alookup s.cache u = none)
    (htr : noErrOn (preloadImage s u).1 u tr = true) :
    alookup (preloadImage s u).1.cache u = some (preloadImage s u).2 ∧
    loadsFor (preloadImage s u).1 u = loadsFor s u + 1 ∧
    preloadImage (runLoader (preloadImage s u).1 tr) u =
      (runLoader (preloadImage s u).1 tr, (preloadImage s u).2) ∧
    loadsFor (runLoader (preloadImage s u).1 tr) u =
      loadsFor (preloadImage s u).1 u := by
  have h1 := preloadImage_miss_cache hmiss
  have h2 := preloadImage_miss_loads hmiss
  have h3 := runLoader_cache_stable tr (preloadImage s u).1 h1 htr
  exact ⟨h1, h2, preloadImage_hit h3.1, h3.2⟩

/-- Witness for C1's theorem: from the fresh loader, preloading `"a"`,
letting it succeed and preloading `"b"` in between, a repeated
`preloadImage("a")` returns the original promise id 0 and starts no new
load. -/
theorem preloadImage_memoizes_witness :
    (alookup initLoader.cache "a" = none ∧
      noErrOn (preloadImage initLoader "a").1 "a"
        [LoaderEvent.success 0, LoaderEvent.preload "b"] = true) ∧
    preloadImage
        (runLoader (preloadImage initLoader "a").1
          [LoaderEvent.success 0, LoaderEvent.preload "b"]) "a" =
      (runLoader (preloadImage initLoader "a").1
          [LoaderEvent.success 0, LoaderEvent.preload "b"],
        (preloadImage initLoader "a").2) ∧
    loadsFor
        (runLoader (preloadImage initLoader "a").1
          [LoaderEvent.success 0, LoaderEvent.preload "b"]) "a" =
      loadsFor (preloadImage initLoader "a").1 "a" :=
  ⟨⟨by decide, by decide⟩,
    (preloadImage_memoizes initLoader "a"
      [LoaderEvent.success 0, LoaderEvent.preload "b"]
      (by decide) (by decide)).2.2.1,
    (preloadImage_memoizes initLoader "a"
      [LoaderEvent.success 0, LoaderEvent.preload "b"]
      (by decide) (by decide)).2.2.2⟩

/-- Counterexample to C1 as stated: after the first load of `"a"` fails,
a subsequent `preloadImage("a")` call does not return the identical
memoized promise (it creates a fresh promise, id 1 instead of 0). -/
theorem preloadImage_memoizes_cex :
    (preloadImage initLoader "a").2 = 0 ∧
    (preloadImage
        (stepLoader (preloadImage initLoader "a").1 (LoaderEvent.failure 0))
        "a").2 = 1 ∧
    (1 : Nat) ≠ 0 := by decide

/-- Counterexample to C2 as stated: after the load of `"a"` fails, a
subsequent `preloadImage("a")` performs a new underlying load attempt
(the count of loads started for `"a"` grows from 1 to 2). -/
theorem no_retry_cex :
    loadsFor (preloadImage initLoader "a").1 "a" = 1 ∧
    loadsFor
      (preloadImage
        (stepLoader (preloadImage initLoader "a").1 (LoaderEvent.failure 0))
        "a").1 "a" = 2 := by decide

/-- C2 (amended): when an image load fails, `loadLazyImage` only logs and
applies the `load-error` fallback class; but the `onerror` handler deletes
the URL's cache entry, so a subsequent `preloadImage` call for the same
URL performs a new underlying load attempt. -/
theorem failure_deletes_and_retries (s : LoaderState) (pid : Nat) (u : String)
    (img : LazyImg) (src : String)
    (hl : nlookup s.loadsStarted pid = some u) (hin : pid ∈ s.inflight)
    (hsrc : img.dataSrc = some src) :
    isCached (stepLoader s (LoaderEvent.failure pid)) u = false ∧
    loadsFor (preloadImage (stepLoader s (LoaderEvent.failure pid)) u).1 u =
      loadsFor (stepLoader s (LoaderEvent.failure pid)) u + 1 ∧
    loadLazyImage img false = { img with classes := "load-error" :: img.classes } := by
  have hdel : alookup (stepLoader s (LoaderEvent.failure pid)).cache u = none := by
    simp only [stepLoader, hl, hin, if_true]
    exact alookup_eraseKey_self u _
  refine ⟨?_, ?_, ?_⟩
  · simp [isCached, hdel]
  · exact preloadImage_miss_loads hdel
  · simp [loadLazyImage, hsrc]

/-- Witness for C2's amended theorem: the failed load of `"a"` is evicted
and the next preload is a second load attempt; the lazy image only gains
the `load-error` class. -/
theorem failure_deletes_and_retries_witness :
    (nlookup (preloadImage initLoader "a").1.loadsStarted 0 = some "a" ∧
      0 ∈ (preloadImage initLoader "a").1.inflight ∧
      (LazyImg.mk none (some "a") [] none).dataSrc = some "a") ∧
    isCached (stepLoader (preloadImage initLoader "a").1 (LoaderEvent.failure 0)) "a" = false ∧
    loadsFor
        (preloadImage
          (stepLoader (preloadImage initLoader "a").1 (LoaderEvent.failure 0)) "a").1 "a" =
      loadsFor (stepLoader (preloadImage initLoader "a").1 (LoaderEvent.failure 0)) "a" + 1 ∧
    loadLazyImage (LazyImg.mk none (some "a") [] none) false =
      { LazyImg.mk none (some "a") [] none with classes := ["load-error"] } :=
  ⟨⟨by decide, by decide, by decide⟩,
    failure_deletes_and_retries (preloadImage initLoader "a").1 0 "a"
      (LazyImg.mk none (some "a") [] none) "a" (by decide) (by decide) (by decide)⟩

/-- C5: no loader operation removes a cache entry except the error handler
of a failed load; in particular once a URL's load has settled with its
entry still cached (a succeeded load), `isCached(url)` stays true under
every subsequent trace of operations. -/
theorem cache_never_evicts (s : LoaderState) (u : String) (p : Nat)
    (hwf : LoaderWF s) (hc : alookup s.cache u = some p)
    (hdone : p ∉ s.inflight) :
    (∀ e : LoaderEvent, (∀ pid, e ≠ LoaderEvent.failure pid) →
      ∀ v q, alookup s.cache v = some q →
        alookup (stepLoader s e).cache v = some q) ∧
    (∀ tr : List LoaderEvent, isCached (runLoader s tr) u = true) := by
  constructor
  · intro e he v q hv
    refine alookup_step_stable hv ?_
    cases e with
    | preload w => rfl
    | success pid => rfl
    | failure pid => exact absurd rfl (he pid)
  · intro tr
    have h := settled_run tr s hwf hc hdone
    simp [isCached, h.2.1]

/-- Witness for C5's theorem: after `"a"` loads successfully, even a
spurious failure event for its settled promise and further preloads leave
it cached. -/
theorem cache_never_evicts_witness :
    (LoaderWF (stepLoader (preloadImage initLoader "a").1 (LoaderEvent.success 0)) ∧
      alookup (stepLoader (preloadImage initLoader "a").1 (LoaderEvent.success 0)).cache "a" =
        some 0 ∧
      0 ∉ (stepLoader (preloadImage initLoader "a").1 (LoaderEvent.success 0)).inflight) ∧
    isCached
      (runLoader (stepLoader (preloadImage initLoader "a").1 (LoaderEvent.success 0))
        [LoaderEvent.failure 0, LoaderEvent.preload "b"]) "a" = true :=
  ⟨⟨by decide, by decide, by decide⟩,
    (cache_never_evicts (stepLoader (preloadImage initLoader "a").1 (LoaderEvent.success 0))
        "a" 0 (by decide) (by decide) (by decide)).2
      [LoaderEvent.failure 0, LoaderEvent.preload "b"]⟩

/-! ## Helper lemmas: deduplication and batching -/

theorem chunks4_flatten : ∀ l : List String, (chunks4 l).flatten = l
  | [] => by simp [chunks4]
  | [a] => by simp [chunks4]
  | [a, b] => by simp [chunks4]
  | [a, b, c] => by simp [chunks4]
  | a :: b :: c :: d :: rest => by simp [chunks4, chunks4_flatten rest]

theorem chunks4_sizes : ∀ l b : List String,
    b ∈ chunks4 l → b ≠ [] ∧ b.length ≤ 4
  | [], b => by simp [chunks4]
  | [a], b => by
    intro h
    simp only [chunks4, List.mem_singleton] at h
    subst h; simp
  | [a, a2], b => by
    intro h
    simp only [chunks4, List.mem_singleton] at h
    subst h; simp
  | [a, a2, a3], b => by
    intro h
    simp only [chunks4, List.mem_singleton] at h
    subst h; simp
  | a :: a2 :: a3 :: a4 :: rest, b => by
    intro h
    simp only [chunks4, List.mem_cons] at h
    rcases h with h | h
    · subst h; simp
    · exact chunks4_sizes rest b h

theorem mem_dedupAux {u : String} : ∀ l seen : List String,
    (u ∈ dedupAux l seen ↔ u ∈ l ∧ u ∉ seen) := by
  intro l
  induction l with
  | nil => intro seen; simp [dedupAux]
  | cons x xs ih =>
    intro seen
    by_cases hx : x ∈ seen
    · rw [dedupAux, if_pos hx, ih seen]
      constructor
      · rintro ⟨h1, h2⟩
        exact ⟨List.mem_cons_of_mem _ h1, h2⟩
      · rintro ⟨h1, h2⟩
        rcases List.mem_cons.mp h1 with h3 | h3
        · exact absurd (h3 ▸ hx) h2
        · exact ⟨h3, h2⟩
    · rw [dedupAux, if_neg hx]
      by_cases hux : u = x
      · subst hux
        simp [hx]
      · simp only [List.mem_cons, hux, false_or]
        rw [ih (x :: seen)]
        simp [hux]

theorem nodup_dedupAux : ∀ l seen : List String, (dedupAux l seen).Nodup := by
  intro l
  induction l with
  | nil => intro seen; simp [dedupAux]
  | cons x xs ih =>
    intro seen
    by_cases hx : x ∈ seen
    · rw [dedupAux, if_pos hx]; exact ih seen
    · rw [dedupAux, if_neg hx]
      refine List.nodup_cons.mpr ⟨?_, ih (x :: seen)⟩
      intro hmem
      exact ((mem_dedupAux xs (x :: seen)).mp hmem).2 (List.mem_cons_self x seen)

theorem batchTrace_eq_bind : ∀ bs : List (List String),
    batchTrace bs = bs.flatMap (fun b => [BatchPhase.start b, BatchPhase.awaitAll])
  | [] => rfl
  | b :: bs => by
    rw [List.flatMap_cons, ← batchTrace_eq_bind bs]
    rfl

/-! ## Claim C6: batched preloading -/

/-- C6: `preloadImages` first deduplicates the URL list (keeping first
occurrences) and drops URLs already in the cache, then partitions the
remainder in order into consecutive batches of at most 4 URLs
(`concurrentPreloads`), and its await loop fully settles each batch before
starting the next one. -/
theorem preloadImages_batches (cache : List (String × Nat)) (urls : List String) :
    (preloadBatches cache urls).flatten =
      (dedupFirst urls).filter (fun u => (alookup cache u).isNone) ∧
    (∀ b ∈ preloadBatches cache urls, b ≠ [] ∧ b.length ≤ 4) ∧
    (dedupFirst urls).Nodup ∧
    (∀ u, u ∈ dedupFirst urls ↔ u ∈ urls) ∧
    preloadImagesTrace cache urls =
      (preloadBatches cache urls).flatMap
        (fun b => [BatchPhase.start b, BatchPhase.awaitAll]) := by
  refine ⟨chunks4_flatten _, fun b hb => chunks4_sizes _ b hb,
    nodup_dedupAux urls [], ?_, batchTrace_eq_bind _⟩
  intro u
  rw [dedupFirst, mem_dedupAux]
  simp

/-- Witness for C6's theorem at a concrete cache and URL list: `"a"` is
duplicated and `"c"` already cached, so the five remaining URLs form one
batch of four and one of one. -/
theorem preloadImages_batches_witness :
    (preloadBatches [("c", 0)] ["a", "b", "a", "c", "d", "e", "f"]).flatten =
      (dedupFirst ["a", "b", "a", "c", "d", "e", "f"]).filter
        (fun u => (alookup [("c", 0)] u).isNone) ∧
    (("f" ∈ dedupFirst ["a", "b", "a", "c", "d", "e", "f"]) ↔
      ("f" ∈ ["a", "b", "a", "c", "d", "e", "f"])) ∧
    preloadBatches [("c", 0)] ["a", "b", "a", "c", "d", "e", "f"] =
      [["a", "b", "d", "e"], ["f"]] :=
  ⟨(preloadImages_batches [("c", 0)] ["a", "b", "a", "c", "d", "e", "f"]).1,
    (preloadImages_batches [("c", 0)] ["a", "b", "a", "c", "d", "e", "f"]).2.2.2.1 "f",
    by decide⟩

/-! ## Helper lemmas: the preview slideshow -/

theorem updatePreviewImage_frame (r : String → Bool) (instant : Bool) (s : ContentState) :
    (updatePreviewImage r instant s).currentImages = s.currentImages ∧
    (updatePreviewImage r instant s).currentImageIndex = s.currentImageIndex ∧
    (updatePreviewImage r instant s).slideshowRunning = s.slideshowRunning ∧
    (updatePreviewImage r instant s).isPreviewVisible = s.isPreviewVisible := by
  unfold updatePreviewImage
  split
  · exact ⟨rfl, rfl, rfl, rfl⟩
  · split
    · exact ⟨rfl, rfl, rfl, rfl⟩
    · split
      · exact ⟨rfl, rfl, rfl, rfl⟩
      · exact ⟨rfl, rfl, rfl, rfl⟩

theorem slideshowTick_images (r : String → Bool) (s : ContentState) :
    (slideshowTick r s).currentImages = s.currentImages := by
  unfold slideshowTick
  rw [(updatePreviewImage_frame r false _).1]

theorem slideshowTick_index (r : String → Bool) (s : ContentState) :
    (slideshowTick r s).currentImageIndex =
      (s.currentImageIndex + 1) % s.currentImages.length := by
  unfold slideshowTick
  rw [(updatePreviewImage_frame r false _).2.1]

theorem showPreviewBox_start (r : String → Bool) (urls : List String) (s : ContentState) :
    (showPreviewBox r urls s).currentImages = urls ∧
    (showPreviewBox r urls s).currentImageIndex = 0 ∧
    (showPreviewBox r urls s).previewImg =
      (updatePreviewImage r true
        { s with currentImages := urls, currentImageIndex := 0,
                 slideshowRunning := false }).previewImg ∧
    (1 < urls.length → (showPreviewBox r urls s).slideshowRunning = true) := by
  unfold showPreviewBox
  have hf := updatePreviewImage_frame r true
    { s with currentImages := urls, currentImageIndex := 0, slideshowRunning := false }
  dsimp only
  split
  · exact ⟨hf.1, hf.2.1, rfl, fun _ => rfl⟩
  · rename_i hnot
    refine ⟨hf.1, hf.2.1, rfl, fun hlt => absurd ?_ hnot⟩
    show 1 < _
    rw [hf.1]
    exact hlt

theorem slideshowTicks_from_zero (r : String → Bool) (urls : List String) :
    ∀ (k : Nat) (s : ContentState), s.currentImages = urls → s.currentImageIndex = 0 →
      (slideshowTicks r k s).currentImages = urls ∧
      (slideshowTicks r k s).currentImageIndex = k % urls.length := by
  intro k
  induction k with
  | zero =>
    intro s him hidx
    refine ⟨him, ?_⟩
    rw [slideshowTicks, hidx]
    exact (Nat.zero_mod _).symm
  | succ k ih =>
    intro s him hidx
    obtain ⟨ihim, ihidx⟩ := ih s him hidx
    constructor
    · rw [slideshowTicks, slideshowTick_images, ihim]
    · rw [slideshowTicks, slideshowTick_index, ihim, ihidx]
      exact Nat.add_mod_eq_add_mod_right 1 (Nat.mod_mod_of_dvd k dvd_rfl)

/-! ## Claims C3, C4 and C10: the preview slideshow -/

/-- C3: for a preview list of more than one URL, the slideshow starts at
index 0, runs on the fixed 2500 ms interval, and after `k` firings of the
interval callback the index is `k % n` and the displayed target is the
`k % n`-th provided URL, so the URLs are shown in order and wrap
cyclically. -/
theorem slideshow_cycles (r : String → Bool) (urls : List String) (s : ContentState)
    (h : 1 < urls.length) (k : Nat) :
    slideshowDelay = 2500 ∧
    (showPreviewBox r urls s).currentImageIndex = 0 ∧
    (showPreviewBox r urls s).slideshowRunning = true ∧
    (slideshowTicks r k (showPreviewBox r urls s)).currentImages = urls ∧
    (slideshowTicks r k (showPreviewBox r urls s)).currentImageIndex = k % urls.length ∧
    currentTarget (slideshowTicks r k (showPreviewBox r urls s)) =
      urls[k % urls.length]? := by
  obtain ⟨him, hidx, _, hrun⟩ := showPreviewBox_start r urls s
  obtain ⟨htim, htidx⟩ := slideshowTicks_from_zero r urls k _ him hidx
  refine ⟨rfl, hidx, hrun h, htim, htidx, ?_⟩
  rw [currentTarget, htim, htidx]

/-- Witness for C3's theorem: a three-URL slideshow visits index
`7 % 3 = 1` and targets `"b"` after seven ticks. -/
theorem slideshow_cycles_witness :
    1 < (["a", "b", "c"] : List String).length ∧
    (slideshowTicks (fun _ => false) 7
        (showPreviewBox (fun _ => false) ["a", "b", "c"]
          (ContentState.mk [] 0 (PreviewImg.mk none false false none) false
            false))).currentImageIndex = 7 % 3 ∧
    currentTarget
        (slideshowTicks (fun _ => false) 7
          (showPreviewBox (fun _ => false) ["a", "b", "c"]
            (ContentState.mk [] 0 (PreviewImg.mk none false false none) false
              false))) = some "b" :=
  ⟨by decide,
    (slideshow_cycles (fun _ => false) ["a", "b", "c"] _ (by decide) 7).2.2.2.2.1,
    by
      rw [(slideshow_cycles (fun _ => false) ["a", "b", "c"]
        (ContentState.mk [] 0 (PreviewImg.mk none false false none) false false)
        (by decide) 7).2.2.2.2.2]
      decide⟩

/-- C4: a slideshow step (`updatePreviewImage` without the `instant` flag)
whose target URL is already cached displays the image immediately: the
background is set, the `loaded` class added, and the `transitioning` fade
class is not applied. -/
theorem cached_skips_fade (r : String → Bool) (s : ContentState) (url : String)
    (hurl : s.currentImages[s.currentImageIndex]? = some url)
    (hready : r url = true) :
    (updatePreviewImage r false s).previewImg.transitioning = false ∧
    (updatePreviewImage r false s).previewImg.backgroundImage = some url ∧
    (updatePreviewImage r false s).previewImg.loaded = true := by
  have hlen : ¬ (s.currentImages.length = 0) := by
    intro h0
    rw [List.length_eq_zero] at h0
    rw [h0] at hurl
    simp at hurl
  unfold updatePreviewImage
  simp [hlen, hurl, hready]

/-- Witness for C4's theorem: with `"b"` cached, the step to index 1
shows `"b"` with no `transitioning` class. -/
theorem cached_skips_fade_witness :
    ((ContentState.mk ["a", "b"] 1 (PreviewImg.mk none false false none) true
        true).currentImages[(ContentState.mk ["a", "b"] 1
          (PreviewImg.mk none false false none) true
          true).currentImageIndex]? = some "b" ∧
      (fun u => u == "b") "b" = true) ∧
    (updatePreviewImage (fun u => u == "b") false
        (ContentState.mk ["a", "b"] 1 (PreviewImg.mk none false false none) true
          true)).previewImg.transitioning = false ∧
    (updatePreviewImage (fun u => u == "b") false
        (ContentState.mk ["a", "b"] 1 (PreviewImg.mk none false false none) true
          true)).previewImg.backgroundImage = some "b" ∧
    (updatePreviewImage (fun u => u == "b") false
        (ContentState.mk ["a", "b"] 1 (PreviewImg.mk none false false none) true
          true)).previewImg.loaded = true :=
  ⟨⟨by decide, by decide⟩,
    cached_skips_fade (fun u => u == "b")
      (ContentState.mk ["a", "b"] 1 (PreviewImg.mk none false false none) true true)
      "b" (by decide) (by decide)⟩

/-- C10: opening a preview displays the first image instantly with no
fade, whatever the cache says (`showPreviewBox` passes `instant = true`);
and a slideshow step applies the `transitioning` fade class exactly when
its target image is not cached. -/
theorem preview_first_instant (r : String → Bool) (urls : List String) (s : ContentState)
    (hne : urls ≠ []) :
    (showPreviewBox r urls s).previewImg.transitioning = false ∧
    (showPreviewBox r urls s).previewImg.backgroundImage = urls[0]? ∧
    (∀ (s' : ContentState) (url : String),
      s'.currentImages[(s'.currentImageIndex + 1) % s'.currentImages.length]? =
        some url →
      (slideshowTick r s').previewImg.transitioning = !(r url)) := by
  obtain ⟨a, as, rfl⟩ := List.exists_cons_of_ne_nil hne
  have hprev := (showPreviewBox_start r (a :: as) s).2.2.1
  constructor
  · rw [hprev]
    simp [updatePreviewImage]
  constructor
  · rw [hprev]
    simp [updatePreviewImage]
  · intro s' url hurl
    have hlen : ¬ (s'.currentImages.length = 0) := by
      intro h0
      rw [List.length_eq_zero] at h0
      rw [h0] at hurl
      simp at hurl
    unfold slideshowTick updatePreviewImage
    cases hru : r url <;> simp [hlen, hurl, hru]

/-- Witness for C10's theorem: opening a preview on two uncached URLs
shows `"a"` instantly without the fade class. -/
theorem preview_first_instant_witness :
    (["a", "b"] : List String) ≠ [] ∧
    (showPreviewBox (fun _ => false) ["a", "b"]
        (ContentState.mk [] 0 (PreviewImg.mk none false false none) false
          false)).previewImg.transitioning = false ∧
    (showPreviewBox (fun _ => false) ["a", "b"]
        (ContentState.mk [] 0 (PreviewImg.mk none false false none) false
          false)).previewImg.backgroundImage = (["a", "b"] : List String)[0]? :=
  ⟨by decide,
    (preview_first_instant (fun _ => false) ["a", "b"]
      (ContentState.mk [] 0 (PreviewImg.mk none false false none) false false)
      (by decide)).1,
    (preview_first_instant (fun _ => false) ["a", "b"]
      (ContentState.mk [] 0 (PreviewImg.mk none false false none) false false)
      (by decide)).2.1⟩

/-! ## Helper lemmas: substring matching and filtering -/

theorem leadsList_eq : ∀ n h : List Char, (leadsList n h = true ↔ ∃ t, n ++ t = h)
  | [], h => by simp [leadsList]
  | a :: ns, [] => by simp [leadsList]
  | a :: ns, b :: hs => by
    simp only [leadsList, Bool.and_eq_true, beq_iff_eq]
    rw [leadsList_eq ns hs]
    constructor
    · rintro ⟨rfl, t, rfl⟩
      exact ⟨t, rfl⟩
    · rintro ⟨t, ht⟩
      rw [List.cons_append] at ht
      injection ht with h1 h2
      exact ⟨h1, t, h2⟩

theorem hasSub_eq : ∀ h n : List Char,
    (hasSub h n = true ↔ ∃ pre post, h = pre ++ n ++ post)
  | [], n => by
    simp only [hasSub, List.isEmpty_iff]
    constructor
    · rintro rfl
      exact ⟨[], [], rfl⟩
    · rintro ⟨pre, post, hp⟩
      rcases List.append_eq_nil.mp (List.append_eq_nil.mp hp.symm).1 with ⟨-, h2⟩
      exact h2
  | c :: t, n => by
    simp only [hasSub, Bool.or_eq_true]
    rw [leadsList_eq n (c :: t), hasSub_eq t n]
    constructor
    · rintro (⟨t', ht⟩ | ⟨pre, post, hp⟩)
      · exact ⟨[], t', by simp [ht]⟩
      · exact ⟨c :: pre, post, by simp [hp]⟩
    · rintro ⟨pre, post, hp⟩
      cases pre with
      | nil =>
        left
        exact ⟨post, by simpa using hp.symm⟩
      | cons pc pt =>
        right
        simp only [List.cons_append] at hp
        injection hp with h1 h2
        exact ⟨pt, post, h2⟩

theorem strIncludes_eq (hay needle : String) :
    (strIncludes hay needle = true ↔ SubStr needle hay) :=
  hasSub_eq hay.data needle.data

theorem filterProjects_spec (q : String) : ∀ ps : List Project,
    (filterProjects q ps).map projData = ps.map projData ∧
    (filterProjects q ps).length = ps.length ∧
    (filterProjects q ps).map Project.display =
      ps.map (fun p => if projMatches q p then "" else "none") ∧
    (filterProjects q ps).map Project.active =
      ps.map (fun p => projMatches q p) := by
  intro ps
  induction ps with
  | nil => simp [filterProjects]
  | cons p pt ih =>
    obtain ⟨ih1, ih2, ih3, ih4⟩ := ih
    simp only [filterProjects, List.map_cons, List.length_cons] at *
    by_cases hm : projMatches q p = true
    · simp [hm, projData, ih1, ih2, ih3, ih4]
    · have hm' : projMatches q p = false := by
        cases hval : projMatches q p
        · rfl
        · exact absurd hval hm
      simp [hm', projData, ih1, ih2, ih3, ih4]

/-! ## Claims C7, C8 and C9: project filtering, sorting and search -/

/-- C7: filtering only toggles each project element's `display` style and
`active` class; the container's children are untouched and the cached
`projects` array keeps the same records, length and order. -/
theorem filter_hides_without_removing (st : ProjectListState) :
    (filterProjectsSt st).container = st.container ∧
    (filterProjectsSt st).projects.map projData = st.projects.map projData ∧
    (filterProjectsSt st).projects.length = st.projects.length ∧
    (filterProjectsSt st).projects.map Project.display =
      st.projects.map (fun p => if projMatches st.searchQuery p then "" else "none") ∧
    (filterProjectsSt st).projects.map Project.active =
      st.projects.map (fun p => projMatches st.searchQuery p) := by
  obtain ⟨h1, h2, h3, h4⟩ := filterProjects_spec st.searchQuery st.projects
  exact ⟨rfl, h1, h2, h3, h4⟩

/-- C8: clicking a sort button for the already-current key toggles the
direction between `desc` and `asc` (and a second click restores the
original state); clicking a different key selects it with direction
`desc`. -/
theorem sort_click_toggles (s : SortState) (key : String)
    (hdir : s.sortDirection = "desc" ∨ s.sortDirection = "asc") :
    (s.currentSort = key →
      (onFilterClick key s).currentSort = s.currentSort ∧
      (onFilterClick key s).sortDirection =
        (if s.sortDirection = "desc" then "asc" else "desc") ∧
      onFilterClick key (onFilterClick key s) = s) ∧
    (s.currentSort ≠ key →
      onFilterClick key s = { currentSort := key, sortDirection := "desc" }) := by
  obtain ⟨cs, sd⟩ := s
  constructor
  · intro heq
    simp only at heq
    subst heq
    rcases hdir with hd | hd <;> simp only at hd <;> subst hd <;>
      simp [onFilterClick]
  · intro hne
    simp only at hne
    simp [onFilterClick, hne]

/-- Witness for C8's theorem: starting from the initial sort state
(`year`, `desc`), clicking `year` switches to `asc`, clicking it again
restores `desc`, and clicking `title` resets to (`title`, `desc`). -/
theorem sort_click_toggles_witness :
    ((SortState.mk "year" "desc").sortDirection = "desc" ∨
      (SortState.mk "year" "desc").sortDirection = "asc") ∧
    ((SortState.mk "year" "desc").currentSort = "year" →
      (onFilterClick "year" (SortState.mk "year" "desc")).currentSort = "year" ∧
      (onFilterClick "year" (SortState.mk "year" "desc")).sortDirection =
        (if (SortState.mk "year" "desc").sortDirection = "desc" then "asc" else "desc") ∧
      onFilterClick "year" (onFilterClick "year" (SortState.mk "year" "desc")) =
        SortState.mk "year" "desc") ∧
    ((SortState.mk "year" "desc").currentSort ≠ "title" →
      onFilterClick "title" (SortState.mk "year" "desc") =
        SortState.mk "title" "desc") :=
  ⟨Or.inl rfl,
    (sort_click_toggles (SortState.mk "year" "desc") "year" (Or.inl rfl)).1,
    (sort_click_toggles (SortState.mk "year" "desc") "title" (Or.inl rfl)).2⟩

/-- C9: after `onSearch` lowercases and trims the query (and with the
title and category lowercased as `cacheProjects` stores them), a project
matches iff the processed query is empty or occurs as a substring of the
lowercased title, the lowercased category, or the decimal string of the
year; an empty or whitespace-only query therefore matches every
project. -/
theorem search_match_spec (query title category : String) (year : Nat) :
    (filterMatch (strTrim (strToLower query)) (strToLower title)
        (strToLower category) year = true ↔
      (strTrim (strToLower query) = "" ∨
        SubStr (strTrim (strToLower query)) (strToLower title) ∨
        SubStr (strTrim (strToLower query)) (strToLower category) ∨
        SubStr (strTrim (strToLower query)) (Nat.repr year))) ∧
    (strTrim (strToLower query) = "" →
      filterMatch (strTrim (strToLower query)) (strToLower title)
        (strToLower category) year = true) := by
  constructor
  · rw [filterMatch]
    simp only [Bool.or_eq_true, beq_iff_eq]
    rw [strIncludes_eq, strIncludes_eq, strIncludes_eq]
    tauto
  · intro hq
    rw [filterMatch, hq]
    simp

/-- Witness for C9's theorem: the whitespace-only raw query `"   "` trims
to the empty query and matches an arbitrary project. -/
theorem search_match_spec_witness :
    strTrim (strToLower "   ") = "" ∧
    filterMatch (strTrim (strToLower "   ")) (strToLower "My Project")
      (strToLower "Web") 2023 = true :=
  ⟨by decide, (search_match_spec "   " "My Project" "Web" 2023).2 (by decide)⟩
